import Mathlib

/-!
socket-game: room registry, reader loop, broadcaster and signaling endpoint.

A shallow embedding of `main.go`.

* A connection handle (`*websocket.Conn`) is a natural number: only its identity matters.
* The global map `clients` is an association list; the order of the list stands for the
  (unspecified) order in which `range clients` produces the entries, so a statement proved
  for every list holds for every iteration order.  A Go map has one entry per key, which is
  `Registry.WF`.
* Go strings are Lean strings.  Offsets are counted in characters; every offset the program
  uses is either the length of an ASCII literal at the start of the string or the position
  of the ASCII character `/`, so byte offsets and character offsets cut the same pieces.
* Effects on the outside world are recorded in logs carried by the state: the `WriteJSON`
  attempts, the write errors, and the `Close` calls.
* The result of an I/O call that the program cannot predict (does the upgrade succeed, does
  a read succeed, does a write succeed) is an input of the model.
-/

namespace SocketGame

/-- The identity of a websocket connection. -/
abbrev Conn := Nat

/-- The wire message, `type SocketMessage struct`. -/
structure SocketMessage where
  Message : String
  RoomId : String
deriving DecidableEq, Repr

/-- The type of the global `clients`, a map from connection to room id. -/
abbrev Registry := List (Conn × String)

namespace Registry

/-- One entry per key, as in every Go map. -/
def WF (r : Registry) : Prop := (r.map Prod.fst).Nodup

instance (r : Registry) : Decidable (WF r) := by unfold WF; infer_instance

/-- Map lookup, the two-valued `v, ok := clients[c]`. -/
def get? : Registry → Conn → Option String
  | [], _ => none
  | (k, v) :: rest, c => if k = c then some v else get? rest c

/-- Whether `c` is a key of the map. -/
def hasKey (r : Registry) (c : Conn) : Bool := (get? r c).isSome

/-- The assignment `clients[c] = v`: overwrite the entry of `c`, or add one. -/
def set : Registry → Conn → String → Registry
  | [], c, v => [(c, v)]
  | (k, x) :: rest, c, v => if k = c then (c, v) :: rest else (k, x) :: set rest c v

/-- The builtin `delete(clients, c)`: a no-op when `c` is not a key. -/
def delete (r : Registry) (c : Conn) : Registry := r.filter (fun e => decide (e.1 ≠ c))

end Registry

/-- The global state of the program together with the logs of its effects. -/
structure State where
  /-- The map `clients`. -/
  clients : Registry
  /-- The messages sent on the channel `broadcast` and not yet received, oldest first. -/
  broadcast : List SocketMessage
  /-- Every `client.WriteJSON(msg)` call so far, in order. -/
  writes : List (Conn × SocketMessage)
  /-- The connection of every `WriteJSON` call that returned an error (each is logged). -/
  writeErrors : List Conn
  /-- Every `Close()` call so far, in order. -/
  closed : List Conn
deriving DecidableEq, Repr

/-- The state at program start: empty map, empty channel, nothing done yet. -/
def State.init : State := ⟨[], [], [], [], []⟩

/-- The loop `for client, id := range clients`: the entries are produced in the order of the
list; an entry deleted before it is reached is not produced. -/
def rangeClients (body : Conn → String → State → State) :
    List (Conn × String) → State → State
  | [], st => st
  | (client, id) :: rest, st =>
      if st.clients.hasKey client then rangeClients body rest (body client id st)
      else rangeClients body rest st

/-- The block shared by `handleMessages` (lines 96-101) and `ApiHandle` (lines 124-131):
`err := client.WriteJSON(msg)`, and on error log it, close the connection and delete it
from `clients`.  `writeOk client` says whether the write succeeds. -/
def writeJSON (writeOk : Conn → Bool) (msg : SocketMessage) (client : Conn)
    (st : State) : State :=
  let st1 := { st with writes := st.writes ++ [(client, msg)] }
  if writeOk client then st1
  else { st1 with
          writeErrors := st1.writeErrors ++ [client]
          closed := st1.closed ++ [client]
          clients := st1.clients.delete client }

/-- One round of the outer loop of `handleMessages`, for the received message `msg`. -/
def handleMessagesRound (writeOk : Conn → Bool) (msg : SocketMessage) (st : State) : State :=
  rangeClients
    (fun client id s => if id = msg.RoomId then writeJSON writeOk msg client s else s)
    st.clients st

/-- One iteration of `handleMessages`: `msg := <-broadcast` then the round.  `none` when
the channel is empty (the broadcaster stays blocked on the receive). -/
def handleMessages (writeOk : Conn → Bool) (st : State) : Option State :=
  match st.broadcast with
  | [] => none
  | msg :: queue => some (handleMessagesRound writeOk msg { st with broadcast := queue })

/-- The write attempts made by a round: what it appended to the log of writes. -/
def roundWrites (writeOk : Conn → Bool) (msg : SocketMessage) (st : State) :
    List (Conn × SocketMessage) :=
  (handleMessagesRound writeOk msg st).writes.drop st.writes.length

/-! ## The connection handler `SocketHandle` -/

/-- The slice expression `s[n:]`. -/
def sliceFrom (s : String) (n : Nat) : String := ⟨s.data.drop n⟩

/-- The slice expression `s[:n]`. -/
def sliceTo (s : String) (n : Nat) : String := ⟨s.data.take n⟩

/-- The expression `r.URL.Path[len("/ws/"):]`, used at lines 76 and 86.  The route
pattern `/ws/` only hands paths that start with `/ws/` to the handler. -/
def roomOfPath (path : String) : String := sliceFrom path "/ws/".length

/-- Line 76: `clients[ws] = r.URL.Path[len("/ws/"):]`. -/
def register (ws : Conn) (path : String) (st : State) : State :=
  { st with clients := st.clients.set ws (roomOfPath path) }

/-- One iteration of the reader loop, lines 79-87.  `r` is the result of
`ws.ReadJSON(&msg)`: `none` for an error, `some msg` for a decoded message.  The second
component tells whether the loop was left through `break`. -/
def readJSON (ws : Conn) (path : String) (r : Option SocketMessage) (st : State) :
    State × Bool :=
  match r with
  | none => ({ st with clients := st.clients.delete ws }, true)
  | some msg =>
      ({ st with broadcast := st.broadcast ++ [{ msg with RoomId := roomOfPath path }] }, false)

/-- The reader loop, lines 78-88, run on the results of the successive reads.  The flag is
`true` when the loop has ended, `false` when it is waiting for a further read. -/
def readLoop (ws : Conn) (path : String) : List (Option SocketMessage) → State → State × Bool
  | [], st => (st, false)
  | r :: rest, st =>
      match readJSON ws path r st with
      | (st1, true) => (st1, true)
      | (st1, false) => readLoop ws path rest st1

/-- The deferred `ws.Close()` of line 74, run when the handler returns. -/
def deferredClose (ws : Conn) (st : State) : State :=
  { st with closed := st.closed ++ [ws] }

/-- How far an invocation of `SocketHandle` got. -/
inductive Outcome where
  /-- The call `log.Fatal(err)`: the error is logged and the process exits with status 1. -/
  | processExit (st : State)
  /-- The handler returned; the deferred close has run. -/
  | returned (st : State)
  /-- The handler is blocked in `ws.ReadJSON`, its connection still open. -/
  | reading (st : State)
deriving DecidableEq, Repr

/-- Whether the server process is still running after the outcome. -/
def Outcome.processAlive : Outcome → Bool
  | .processExit _ => false
  | .returned _ => true
  | .reading _ => true

/-- The state left by the handler. -/
def Outcome.state : Outcome → State
  | .processExit st => st
  | .returned st => st
  | .reading st => st

/-- The handler `SocketHandle`.  `upgrade` is the result of `upgrader.Upgrade`: `none` for an
error, `some ws` for the new connection; `reads` are the results of the successive reads. -/
def SocketHandle (upgrade : Option Conn) (path : String)
    (reads : List (Option SocketMessage)) (st : State) : Outcome :=
  match upgrade with
  | none => .processExit st
  | some ws =>
      match readLoop ws path reads (register ws path st) with
      | (st1, true) => .returned (deferredClose ws st1)
      | (st1, false) => .reading st1

/-! ## The signaling endpoint `ApiHandle` -/

/-- The function `strings.Index(s, sub)` on the characters of `s` from offset `i` on: the
offset of the first occurrence of `sub`, or `-1`. -/
def indexFrom (sub : List Char) : List Char → Nat → Int
  | [], i => if sub = [] then (i : Int) else -1
  | c :: cs, i => if sub.isPrefixOf (c :: cs) then (i : Int) else indexFrom sub cs (i + 1)

/-- The function `strings.LastIndex(s, sub)` on the characters of `s` from offset `i` on:
the offset of the last occurrence of `sub`, or `-1`. -/
def lastIndexFrom (sub : List Char) : List Char → Nat → Int
  | [], i => if sub = [] then (i : Int) else -1
  | c :: cs, i =>
      if 0 ≤ lastIndexFrom sub cs (i + 1) then lastIndexFrom sub cs (i + 1)
      else if sub.isPrefixOf (c :: cs) then (i : Int) else -1

/-- The library function `strings.Index`. -/
def stringsIndex (s sub : String) : Int := indexFrom sub.data s.data 0

/-- The library function `strings.LastIndex`. -/
def stringsLastIndex (s sub : String) : Int := lastIndexFrom sub.data s.data 0

/-- Lines 110-118 of `ApiHandle`: the pair `(mode, hash)` computed from the request path. -/
def apiModeHash (path : String) : String × String :=
  if path.length > "/r/".length then
    let mode := sliceFrom path "/r/".length
    if stringsIndex mode "/" > 0 then
      (sliceTo mode (stringsLastIndex mode "/").toNat,
        sliceFrom mode (stringsLastIndex mode "/" + 1).toNat)
    else (mode, "")
  else ("", "")

/-- What the handler has sent through its `http.ResponseWriter`. -/
structure ResponseWriter where
  /-- The header fields added so far. -/
  header : List (String × String)
  /-- The status code of the response: 200 unless `WriteHeader` is called. -/
  status : Int
  /-- The bytes written to the body so far. -/
  body : String
deriving DecidableEq, Repr

/-- A response writer nothing has been written to. -/
def ResponseWriter.fresh : ResponseWriter := ⟨[], 200, ""⟩

/-- The anonymous struct marshalled by `ApiResponse`. -/
structure ApiResult where
  Result : Bool
  Message : String
deriving DecidableEq, Repr

/-- A hexadecimal digit. -/
def hexDigit (n : Nat) : Char := "0123456789abcdef".data.getD n '0'

/-- How `encoding/json` writes one character of a string (HTML escaping is on in
`json.Marshal`; backspace and form feed have the short forms `\b` and `\f`, the other
control characters without a short form are written as `\u00xx`). -/
def jsonEscapeChar (c : Char) : List Char :=
  if c = '"' then ['\\', '"']
  else if c = '\\' then ['\\', '\\']
  else if c = Char.ofNat 8 then ['\\', 'b']
  else if c = Char.ofNat 12 then ['\\', 'f']
  else if c = '\n' then ['\\', 'n']
  else if c = '\r' then ['\\', 'r']
  else if c = '\t' then ['\\', 't']
  else if c.toNat < 32 ∨ c = '<' ∨ c = '>' ∨ c = '&' then
    ['\\', 'u', '0', '0', hexDigit (c.toNat / 16), hexDigit (c.toNat % 16)]
  else if c.toNat = 8232 then ['\\', 'u', '2', '0', '2', '8']
  else if c.toNat = 8233 then ['\\', 'u', '2', '0', '2', '9']
  else [c]

/-- A string as a JSON string literal, as `encoding/json` writes it. -/
def jsonString (s : String) : String := ⟨'"' :: (s.data.flatMap jsonEscapeChar ++ ['"'])⟩

/-- The result of `json.Marshal` on the struct of `ApiResponse`; it cannot fail on a
boolean and a string. -/
def jsonMarshal (v : ApiResult) : String :=
  "\x7b\"result\":" ++ (if v.Result then "true" else "false") ++ ",\"message\":"
    ++ jsonString v.Message ++ "\x7d"

/-- The struct that `ApiResponse` marshals, lines 143-149. -/
def apiResult (statuscode : Int) (msg : String) : ApiResult :=
  { Result := decide (statuscode = 200), Message := msg }

/-- The function `ApiResponse`: marshal the envelope and `fmt.Fprintln` it to the body. -/
def ApiResponse (w : ResponseWriter) (statuscode : Int) (msg : String) : ResponseWriter :=
  { w with body := w.body ++ jsonMarshal (apiResult statuscode msg) ++ "\n" }

/-- The handler `ApiHandle`.  `formIp` is the value of `r.FormValue("ip")`, and `writeOk`
tells which writes to a websocket succeed. -/
def ApiHandle (method path formIp : String) (writeOk : Conn → Bool) (st : State)
    (w : ResponseWriter) : State × ResponseWriter :=
  let w1 := { w with header := w.header ++ [("Content-Type", "application/json; charset=utf-8")] }
  let mode := (apiModeHash path).1
  let hash := (apiModeHash path).2
  if method = "GET" then
    if mode = "time" ∧ hash ≠ "" then
      (rangeClients
          (fun client id s =>
            if id = "ws" then writeJSON writeOk { Message := hash, RoomId := "" } client s
            else s)
          st.clients st,
        ApiResponse w1 200 "ok")
    else if mode = "ip" then (st, ApiResponse w1 200 formIp)
    else (st, w1)
  else (st, w1)

/-- The write attempts made by a call of `ApiHandle`. -/
def apiWrites (method path formIp : String) (writeOk : Conn → Bool) (st : State)
    (w : ResponseWriter) : List (Conn × SocketMessage) :=
  (ApiHandle method path formIp writeOk st w).1.writes.drop st.writes.length

/-! ## The whole server as a transition system

The reader of every connection, the broadcaster and every call of `ApiHandle` run in
goroutines of their own and nothing in `main.go` orders them, so the steps below are the
single statements of the fan-out loops and of the end of the reader, and a run interleaves
them freely. -/

/-- The statement a running fan-out loop (lines 94-103 or 122-133) is about to execute. -/
inductive LoopPoint where
  /-- The loop header `for client, id := range clients`. -/
  | atRange
  /-- The body, with the entry the header has produced: the test on `id` and `WriteJSON`. -/
  | atBody (client : Conn) (id : String)
  /-- The call `client.Close()`, after `WriteJSON` returned an error and it was logged. -/
  | atClose (client : Conn)
  /-- The call `delete(clients, client)`. -/
  | atDelete (client : Conn)
deriving DecidableEq, Repr

/-- A running fan-out loop. -/
structure Loop where
  /-- The room the loop compares `id` with: `msg.RoomId` in `handleMessages`, the literal
  `ws` in `ApiHandle`. -/
  room : String
  /-- The message the loop writes. -/
  msg : SocketMessage
  /-- The entries the header has still to produce. -/
  pending : List (Conn × String)
  /-- The next statement. -/
  point : LoopPoint
  /-- Whether this is the loop of `handleMessages` rather than one of `ApiHandle`. -/
  broadcaster : Bool
deriving DecidableEq, Repr

/-- The loop is over: the header has no entry left to produce. -/
def Loop.done (l : Loop) : Bool :=
  match l.point, l.pending with
  | .atRange, [] => true
  | _, _ => false

/-- One statement of a fan-out loop.  `ok` is the result of `WriteJSON` when the statement
is the write.  As in `rangeClients`, an entry deleted before the header reaches it is not
produced. -/
def Loop.step (ok : Bool) (l : Loop) (st : State) : Loop × State :=
  match l.point with
  | .atRange =>
      match l.pending with
      | [] => (l, st)
      | (client, id) :: rest =>
          if st.clients.hasKey client then
            ({ l with pending := rest, point := .atBody client id }, st)
          else ({ l with pending := rest }, st)
  | .atBody client id =>
      if id = l.room then
        if ok then
          ({ l with point := .atRange }, { st with writes := st.writes ++ [(client, l.msg)] })
        else
          ({ l with point := .atClose client },
            { st with
                writes := st.writes ++ [(client, l.msg)]
                writeErrors := st.writeErrors ++ [client] })
      else ({ l with point := .atRange }, st)
  | .atClose client =>
      ({ l with point := .atDelete client }, { st with closed := st.closed ++ [client] })
  | .atDelete client =>
      ({ l with point := .atRange }, { st with clients := st.clients.delete client })

/-- The result of the write a loop is about to make, when the writes succeed as `writeOk`
says. -/
def Loop.okFor (writeOk : Conn → Bool) (l : Loop) : Bool :=
  match l.point with
  | .atBody client _ => writeOk client
  | _ => true

/-- A loop run on its own, with no other goroutine in between, for at most `n` statements. -/
def Loop.runAlone (writeOk : Conn → Bool) : Nat → Loop → State → Loop × State
  | 0, l, st => (l, st)
  | n + 1, l, st =>
      if l.done then (l, st)
      else Loop.runAlone writeOk n (l.step (l.okFor writeOk) st).1 (l.step (l.okFor writeOk) st).2

/-- The server: the global state, the invocations of `SocketHandle` at their different
stages, and the running fan-out loops. -/
structure Sys where
  st : State
  /-- The handlers in their reader loop: connection and request path. -/
  handlers : List (Conn × String)
  /-- The handlers that have left the reader loop and have not yet returned. -/
  leaving : List Conn
  /-- The connections whose handler has returned, the deferred close included. -/
  exited : List Conn
  /-- The running fan-out loops. -/
  loops : List Loop
deriving DecidableEq, Repr

/-- The server at start. -/
def Sys.init : Sys := ⟨State.init, [], [], [], []⟩

/-- The steps of the server. -/
inductive Event where
  /-- A request on `/ws/` is upgraded to the new connection `ws` and registered. -/
  | accept (ws : Conn) (path : String)
  /-- The reader of `ws` gets the result `r` of a read (lines 79-87). -/
  | read (ws : Conn) (r : Option SocketMessage)
  /-- The handler of `ws` returns after the `break`: the deferred `ws.Close()` runs. -/
  | exit (ws : Conn)
  /-- The broadcaster receives the next message, `msg := <-broadcast`, and enters its loop. -/
  | receive
  /-- A request on `/r/` reaches the loop of `ApiHandle`, or is answered without one. -/
  | api (method path : String)
  /-- The running loop number `i` executes its next statement; `ok` is the result of
  `WriteJSON` when that statement is the write. -/
  | loop (i : Nat) (ok : Bool)
deriving DecidableEq, Repr

/-- One step.  `none` when the step cannot happen: the handle of an accepted connection is
new, only a handler in its reader loop reads, only a handler that left the loop returns,
the broadcaster has one loop at a time and needs a message in the channel, and only a
running loop moves. -/
def step (s : Sys) : Event → Option Sys
  | .accept ws path =>
      if Registry.hasKey s.handlers ws ∨ ws ∈ s.leaving ∨ ws ∈ s.exited then none
      else some { s with st := register ws path s.st, handlers := (ws, path) :: s.handlers }
  | .read ws r =>
      match Registry.get? s.handlers ws with
      | none => none
      | some path =>
          match readJSON ws path r s.st with
          | (st1, true) =>
              some { s with
                      st := st1
                      handlers := Registry.delete s.handlers ws
                      leaving := ws :: s.leaving }
          | (st1, false) => some { s with st := st1 }
  | .exit ws =>
      if ws ∈ s.leaving then
        some { s with
                st := deferredClose ws s.st
                leaving := s.leaving.filter (fun c => decide (c ≠ ws))
                exited := ws :: s.exited }
      else none
  | .receive =>
      if s.loops.any (fun l => l.broadcaster) then none
      else
        match s.st.broadcast with
        | [] => none
        | msg :: queue =>
            some { s with
                    st := { s.st with broadcast := queue }
                    loops := s.loops ++ [⟨msg.RoomId, msg, s.st.clients, .atRange, true⟩] }
  | .api method path =>
      if method = "GET" ∧ (apiModeHash path).1 = "time" ∧ (apiModeHash path).2 ≠ "" then
        some { s with
                loops := s.loops ++
                  [⟨"ws", { Message := (apiModeHash path).2, RoomId := "" }, s.st.clients,
                    .atRange, false⟩] }
      else some s
  | .loop i ok =>
      match s.loops.get? i with
      | none => none
      | some l =>
          if l.done then some { s with loops := s.loops.eraseIdx i }
          else some { s with st := (l.step ok s.st).2, loops := s.loops.set i (l.step ok s.st).1 }

/-- A sequence of steps. -/
def run (s : Sys) : List Event → Option Sys
  | [] => some s
  | e :: es =>
      match step s e with
      | none => none
      | some s1 => run s1 es

/-- The number of running loops that are about to call `Close` on `c`. -/
def pendingCloses (loops : List Loop) (c : Conn) : Nat :=
  loops.countP (fun l => decide (l.point = .atClose c))

/-- The invariant of the server: a handler that has not returned is not among the returned
ones, and the `Close` calls on a connection, made or about to be made, are one for the
return of its handler and one for each failed write to it. -/
def Sys.Inv (s : Sys) : Prop :=
  (∀ c, c ∈ s.handlers.map Prod.fst → c ∉ s.leaving)
    ∧ (∀ c, c ∈ s.handlers.map Prod.fst ∨ c ∈ s.leaving → c ∉ s.exited)
    ∧ (∀ c, (if c ∈ s.exited then 1 else 0) ≤ s.st.closed.count c)
    ∧ (∀ c, s.st.closed.count c + pendingCloses s.loops c
        = (if c ∈ s.exited then 1 else 0) + s.st.writeErrors.count c)

/-- A registry with two monitoring connections in the reserved room `ws`. -/
def monitorState : State := ⟨[(1, "ws"), (2, "lobby"), (3, "ws")], [], [], [], []⟩

/-- A run in which a write of the broadcaster to connection 1 fails before its reader
ends. -/
def failedWriteRun : List Event :=
  [.accept 1 "/ws/lobby", .read 1 (some ⟨"hi", ""⟩), .receive, .loop 0 true, .loop 0 false,
    .loop 0 true, .loop 0 true, .loop 0 true, .read 1 none, .exit 1]

/-- The state of the server at the end of `failedWriteRun`. -/
def failedWriteEnd : Sys :=
  ⟨⟨[], [], [(1, ⟨"hi", "lobby"⟩)], [1], [1, 1]⟩, [], [], [1], []⟩

/-- A run in which the loop of the broadcaster and a loop of `ApiHandle` both hold
connection 1 before either deletes it, and both writes fail. -/
def overlappingRun : List Event :=
  [.accept 1 "/ws/ws", .read 1 (some ⟨"hi", ""⟩), .receive, .api "GET" "/r/time/5",
    .loop 0 true, .loop 1 true, .loop 0 false, .loop 0 true, .loop 0 true,
    .loop 1 false, .loop 1 true, .loop 1 true, .loop 0 true, .loop 0 true,
    .read 1 none, .exit 1]

/-- The scenario of the specification: connections 1 and 2 in room `lobby`, connection 3
in room `other`. -/
def lobbyState : State := ⟨[(1, "lobby"), (2, "lobby"), (3, "other")], [], [], [], []⟩

/-! ## Lemmas on the registry -/

theorem Registry.get?_delete (r : Registry) (c k : Conn) :
    (Registry.delete r c).get? k = if k = c then none else r.get? k := by
  induction r with
  | nil => simp [Registry.delete, Registry.get?]
  | cons e rest ih =>
    obtain ⟨a, v⟩ := e
    unfold Registry.delete at ih ⊢
    by_cases hac : a = c
    · subst hac
      by_cases hk : k = a
      · subst hk; simpa [List.filter_cons] using ih
      · have hk2 : ¬ a = k := fun h => hk h.symm
        simpa [List.filter_cons, Registry.get?, hk, hk2] using ih
    · by_cases hk : a = k
      · subst hk; simp [List.filter_cons, hac, Registry.get?]
      · simpa [List.filter_cons, hac, Registry.get?, hk] using ih

theorem Registry.get?_eq_some_of_mem {r : Registry} (h : r.WF) {c : Conn} {v : String}
    (hm : (c, v) ∈ r) : r.get? c = some v := by
  induction r with
  | nil => simp at hm
  | cons e rest ih =>
    obtain ⟨a, x⟩ := e
    have hnd : a ∉ rest.map Prod.fst ∧ (rest.map Prod.fst).Nodup := by
      simpa [Registry.WF] using h
    rcases List.mem_cons.1 hm with heq | hin
    · cases heq; simp [Registry.get?]
    · have hne : a ≠ c := by
        intro hac
        exact hnd.1 (List.mem_map.2 ⟨(c, v), hin, hac.symm⟩)
      simpa [Registry.get?, hne] using ih hnd.2 hin

theorem Registry.mem_of_get?_eq_some {r : Registry} {c : Conn} {v : String}
    (h : r.get? c = some v) : (c, v) ∈ r := by
  induction r with
  | nil => simp [Registry.get?] at h
  | cons e rest ih =>
    obtain ⟨a, x⟩ := e
    by_cases hac : a = c
    · subst hac
      simp [Registry.get?] at h
      subst h; simp
    · simp [Registry.get?, hac] at h
      exact List.mem_cons_of_mem _ (ih h)

theorem Registry.hasKey_of_mem {r : Registry} {e : Conn × String} (hm : e ∈ r) :
    r.hasKey e.1 = true := by
  induction r with
  | nil => simp at hm
  | cons a rest ih =>
    obtain ⟨k, x⟩ := a
    by_cases hk : k = e.1
    · simp [Registry.hasKey, Registry.get?, hk]
    · rcases List.mem_cons.1 hm with heq | hin
      · subst heq; exact absurd rfl hk
      · have := ih hin
        simpa [Registry.hasKey, Registry.get?, hk] using this

theorem Registry.WF.eq_of_fst_eq {r : Registry} (h : r.WF) {e e' : Conn × String}
    (he : e ∈ r) (he' : e' ∈ r) (hk : e.1 = e'.1) : e = e' :=
  List.inj_on_of_nodup_map h he he' hk

/-! ## The fan-out loop -/

theorem fanFailed_cons_pos (p : String → Prop) [DecidablePred p] (writeOk : Conn → Bool)
    (c : Conn) (id : String) (rest : List (Conn × String)) (h : p id ∧ writeOk c = false) :
    ((((c, id) :: rest).filter (fun e => decide (p e.2 ∧ writeOk e.1 = false))).map Prod.fst)
      = c :: ((rest.filter (fun e => decide (p e.2 ∧ writeOk e.1 = false))).map Prod.fst) := by
  rw [List.filter_cons_of_pos (by simpa using h)]
  rfl

theorem fanFailed_cons_neg (p : String → Prop) [DecidablePred p] (writeOk : Conn → Bool)
    (c : Conn) (id : String) (rest : List (Conn × String)) (h : ¬ (p id ∧ writeOk c = false)) :
    ((((c, id) :: rest).filter (fun e => decide (p e.2 ∧ writeOk e.1 = false))).map Prod.fst)
      = ((rest.filter (fun e => decide (p e.2 ∧ writeOk e.1 = false))).map Prod.fst) := by
  rw [List.filter_cons_of_neg (by simpa using h)]

theorem rangeClients_fan (p : String → Prop) [DecidablePred p] (writeOk : Conn → Bool)
    (msg : SocketMessage) :
    ∀ (entries : List (Conn × String)) (st : State),
      (entries.map Prod.fst).Nodup →
      (∀ e ∈ entries, st.clients.hasKey e.1 = true) →
      rangeClients (fun client id s => if p id then writeJSON writeOk msg client s else s)
          entries st
        = { clients := st.clients.filter (fun e => decide (e.1 ∉
              (entries.filter (fun e => decide (p e.2 ∧ writeOk e.1 = false))).map Prod.fst))
            broadcast := st.broadcast
            writes := st.writes ++
              (entries.filter (fun e => decide (p e.2))).map (fun e => (e.1, msg))
            writeErrors := st.writeErrors ++
              (entries.filter (fun e => decide (p e.2 ∧ writeOk e.1 = false))).map Prod.fst
            closed := st.closed ++
              (entries.filter (fun e => decide (p e.2 ∧ writeOk e.1 = false))).map Prod.fst } := by
  intro entries
  induction entries with
  | nil => intro st _ _; simp [rangeClients]
  | cons e rest ih =>
    intro st hnd hkeys
    obtain ⟨c, id⟩ := e
    have hnd2 : c ∉ rest.map Prod.fst ∧ (rest.map Prod.fst).Nodup := by simpa using hnd
    have hc : st.clients.hasKey c = true := hkeys (c, id) (List.mem_cons_self _ _)
    have hrest : ∀ e ∈ rest, st.clients.hasKey e.1 = true :=
      fun e he => hkeys e (List.mem_cons_of_mem _ he)
    rw [rangeClients, if_pos hc]
    by_cases hp : p id
    · by_cases hw : writeOk c = true
      · have hbody : (if p id then writeJSON writeOk msg c st else st)
            = { st with writes := st.writes ++ [(c, msg)] } := by
          simp [hp, writeJSON, hw]
        rw [hbody, ih { st with writes := st.writes ++ [(c, msg)] } hnd2.2 hrest,
          fanFailed_cons_neg p writeOk c id rest (by simp [hw]),
          List.filter_cons_of_pos (by simpa using hp)]
        simp
      · have hw2 : writeOk c = false := by simpa using hw
        have hbody : (if p id then writeJSON writeOk msg c st else st)
            = { st with
                writes := st.writes ++ [(c, msg)]
                writeErrors := st.writeErrors ++ [c]
                closed := st.closed ++ [c]
                clients := st.clients.delete c } := by
          simp [hp, writeJSON, hw2]
        have hkeys2 : ∀ e ∈ rest, (st.clients.delete c).hasKey e.1 = true := by
          intro e he
          have hne : e.1 ≠ c := by
            intro h
            exact hnd2.1 (List.mem_map.2 ⟨e, he, h⟩)
          have := hrest e he
          simpa [Registry.hasKey, Registry.get?_delete, hne] using this
        rw [hbody, ih _ hnd2.2 hkeys2,
          fanFailed_cons_pos p writeOk c id rest ⟨hp, hw2⟩,
          List.filter_cons_of_pos (by simpa using hp)]
        simp only [Registry.delete, List.filter_filter, List.append_assoc, List.map_cons,
          List.singleton_append, State.mk.injEq, and_true, true_and]
        apply List.filter_congr
        intro x _
        by_cases hx : x.1 = c <;> simp [hx]
    · have hbody : (if p id then writeJSON writeOk msg c st else st) = st := by simp [hp]
      rw [hbody, ih st hnd2.2 hrest,
        fanFailed_cons_neg p writeOk c id rest (by simp [hp]),
        List.filter_cons_of_neg (by simpa using hp)]

theorem Registry.get?_eq_none_of_not_mem {r : Registry} {c : Conn}
    (h : c ∉ r.map Prod.fst) : r.get? c = none := by
  cases hg : r.get? c with
  | none => rfl
  | some v =>
    exact absurd (List.mem_map.2 ⟨(c, v), Registry.mem_of_get?_eq_some hg, rfl⟩) h

theorem Registry.WF.filter {r : Registry} (h : r.WF) (q : Conn × String → Bool) :
    Registry.WF (r.filter q) :=
  List.Nodup.sublist (List.Sublist.map Prod.fst (List.filter_sublist r)) h

theorem Registry.get?_eq_some_iff {r : Registry} (h : r.WF) (c : Conn) (v : String) :
    r.get? c = some v ↔ (c, v) ∈ r :=
  ⟨Registry.mem_of_get?_eq_some, Registry.get?_eq_some_of_mem h⟩

theorem Registry.get?_filter {r : Registry} (h : r.WF) (q : Conn × String → Bool) (c : Conn) :
    Registry.get? (r.filter q) c = (r.get? c).filter (fun v => q (c, v)) := by
  cases hg : r.get? c with
  | none =>
    cases hf : Registry.get? (r.filter q) c with
    | none => rfl
    | some v =>
      have hm : (c, v) ∈ r := (List.mem_filter.1 (Registry.mem_of_get?_eq_some hf)).1
      rw [Registry.get?_eq_some_of_mem h hm] at hg
      cases hg
  | some v =>
    have hm : (c, v) ∈ r := Registry.mem_of_get?_eq_some hg
    by_cases hq : q (c, v) = true
    · have : (c, v) ∈ r.filter q := List.mem_filter.2 ⟨hm, hq⟩
      rw [Registry.get?_eq_some_of_mem (h.filter q) this]
      simp [Option.filter, hq]
    · cases hf : Registry.get? (r.filter q) c with
      | none => simp [Option.filter, hq]
      | some v2 =>
        have hm2 := List.mem_filter.1 (Registry.mem_of_get?_eq_some hf)
        have hv : v2 = v := by
          have := Registry.get?_eq_some_of_mem h hm2.1
          rw [hg] at this
          exact (Option.some.inj this).symm
        subst hv
        exact absurd hm2.2 hq

/-- A fan-out loop over the whole registry: it writes to the entries whose room passes the
test, in order, and removes those among them whose write fails. -/
theorem rangeClients_clients (p : String → Prop) [DecidablePred p] (writeOk : Conn → Bool)
    (msg : SocketMessage) (st : State) (h : st.clients.WF) :
    rangeClients (fun client id s => if p id then writeJSON writeOk msg client s else s)
        st.clients st
      = { clients := st.clients.filter (fun e => decide (¬ (p e.2 ∧ writeOk e.1 = false)))
          broadcast := st.broadcast
          writes := st.writes ++
            (st.clients.filter (fun e => decide (p e.2))).map (fun e => (e.1, msg))
          writeErrors := st.writeErrors ++
            (st.clients.filter (fun e => decide (p e.2 ∧ writeOk e.1 = false))).map Prod.fst
          closed := st.closed ++
            (st.clients.filter (fun e => decide (p e.2 ∧ writeOk e.1 = false))).map Prod.fst } := by
  rw [rangeClients_fan p writeOk msg st.clients st h
    (fun e he => Registry.hasKey_of_mem he)]
  have hcl : st.clients.filter (fun e => decide (e.1 ∉
        (st.clients.filter (fun e => decide (p e.2 ∧ writeOk e.1 = false))).map Prod.fst))
      = st.clients.filter (fun e => decide (¬ (p e.2 ∧ writeOk e.1 = false))) := by
    apply List.filter_congr
    intro x hx
    have key : x.1 ∈ (st.clients.filter
          (fun e => decide (p e.2 ∧ writeOk e.1 = false))).map Prod.fst
        ↔ (p x.2 ∧ writeOk x.1 = false) := by
      constructor
      · intro hmem
        obtain ⟨y, hy, hyx⟩ := List.mem_map.1 hmem
        have hy2 := List.mem_filter.1 hy
        have : y = x := h.eq_of_fst_eq hy2.1 hx hyx
        subst this
        simpa using hy2.2
      · intro hpx
        exact List.mem_map.2 ⟨x, List.mem_filter.2 ⟨hx, by simpa using hpx⟩, rfl⟩
    simp only [key]
  rw [hcl]

theorem handleMessagesRound_eq (writeOk : Conn → Bool) (msg : SocketMessage) (st : State)
    (h : st.clients.WF) :
    handleMessagesRound writeOk msg st
      = { clients := st.clients.filter
            (fun e => decide (¬ (e.2 = msg.RoomId ∧ writeOk e.1 = false)))
          broadcast := st.broadcast
          writes := st.writes ++
            (st.clients.filter (fun e => decide (e.2 = msg.RoomId))).map (fun e => (e.1, msg))
          writeErrors := st.writeErrors ++
            (st.clients.filter
              (fun e => decide (e.2 = msg.RoomId ∧ writeOk e.1 = false))).map Prod.fst
          closed := st.closed ++
            (st.clients.filter
              (fun e => decide (e.2 = msg.RoomId ∧ writeOk e.1 = false))).map Prod.fst } :=
  rangeClients_clients (fun id => id = msg.RoomId) writeOk msg st h

theorem roundWrites_eq (writeOk : Conn → Bool) (msg : SocketMessage) (st : State)
    (h : st.clients.WF) :
    roundWrites writeOk msg st
      = (st.clients.filter (fun e => decide (e.2 = msg.RoomId))).map (fun e => (e.1, msg)) := by
  simp [roundWrites, handleMessagesRound_eq writeOk msg st h]

theorem room_fst_count {r : Registry} (h : r.WF) (room : String) (msg : SocketMessage)
    (c : Conn) :
    (((r.filter (fun e => decide (e.2 = room))).map (fun e => (e.1, msg))).map
        Prod.fst).count c
      = if r.get? c = some room then 1 else 0 := by
  rw [List.map_map]
  have hfst : (Prod.fst ∘ fun e : Conn × String => (e.1, msg)) = Prod.fst := rfl
  rw [hfst]
  have hnd : ((r.filter (fun e => decide (e.2 = room))).map Prod.fst).Nodup := h.filter _
  rw [List.count_eq_of_nodup hnd]
  have hiff : c ∈ (r.filter (fun e => decide (e.2 = room))).map Prod.fst
      ↔ r.get? c = some room := by
    constructor
    · intro hm
      obtain ⟨y, hy, hyc⟩ := List.mem_map.1 hm
      obtain ⟨k, v⟩ := y
      have hy2 := List.mem_filter.1 hy
      simp at hyc hy2
      subst hyc
      rw [← hy2.2]
      exact Registry.get?_eq_some_of_mem h hy2.1
    · intro hg
      exact List.mem_map.2 ⟨(c, room),
        List.mem_filter.2 ⟨Registry.mem_of_get?_eq_some hg, by simp⟩, rfl⟩
  simp only [hiff]

theorem roundWrites_fst_count (writeOk : Conn → Bool) (msg : SocketMessage) (st : State)
    (h : st.clients.WF) (c : Conn) :
    ((roundWrites writeOk msg st).map Prod.fst).count c
      = if st.clients.get? c = some msg.RoomId then 1 else 0 := by
  rw [roundWrites_eq writeOk msg st h]
  exact room_fst_count h msg.RoomId msg c

/-! ## The broadcaster round -/

/-- C1: one round of `handleMessages` for the message `m` attempts a write of `m` to the
connections registered under the room `m.RoomId`, each exactly once, and to no other
connection, whatever writes fail: the attempts are the entries of that room in iteration
order, the number of attempts to a connection is 1 when its registered room is `m.RoomId`
and 0 otherwise, and every attempt carries `m`. -/
theorem handleMessages_round_delivers (writeOk : Conn → Bool) (m : SocketMessage)
    (st : State) (h : st.clients.WF) :
    roundWrites writeOk m st
        = (st.clients.filter (fun e => decide (e.2 = m.RoomId))).map (fun e => (e.1, m))
      ∧ (∀ c : Conn, ((roundWrites writeOk m st).map Prod.fst).count c
          = if st.clients.get? c = some m.RoomId then 1 else 0)
      ∧ (∀ w ∈ roundWrites writeOk m st, w.2 = m) := by
  refine ⟨roundWrites_eq writeOk m st h, roundWrites_fst_count writeOk m st h, ?_⟩
  intro w hw
  rw [roundWrites_eq writeOk m st h] at hw
  obtain ⟨e, _, he⟩ := List.mem_map.1 hw
  rw [← he]

/-- The scenario of C1: 1 and 2 are in `lobby`, 3 in `other`, the write to 1 fails; the
message is still written to 1 and to 2, and not to 3. -/
theorem handleMessages_round_delivers_witness :
    lobbyState.clients.WF
      ∧ roundWrites (fun c => decide (c ≠ 1)) ⟨"hi", "lobby"⟩ lobbyState
          = [(1, ⟨"hi", "lobby"⟩), (2, ⟨"hi", "lobby"⟩)] :=
  ⟨by decide,
    (handleMessages_round_delivers (fun c => decide (c ≠ 1)) ⟨"hi", "lobby"⟩ lobbyState
      (by decide)).1.trans (by decide)⟩

/-- C3: after one round of `handleMessages` the registry is the registry before it without
the entries of the room `m.RoomId` whose write failed: such a connection is no longer
registered and no later round writes to it, and every other connection keeps its entry. -/
theorem handleMessages_round_registry (writeOk : Conn → Bool) (m : SocketMessage)
    (st : State) (h : st.clients.WF) :
    (handleMessagesRound writeOk m st).clients
        = st.clients.filter (fun e => decide (¬ (e.2 = m.RoomId ∧ writeOk e.1 = false)))
      ∧ (∀ c : Conn, st.clients.get? c = some m.RoomId → writeOk c = false →
          (handleMessagesRound writeOk m st).clients.get? c = none
          ∧ ∀ (writeOk2 : Conn → Bool) (m2 : SocketMessage),
              c ∉ (roundWrites writeOk2 m2 (handleMessagesRound writeOk m st)).map Prod.fst)
      ∧ (∀ c : Conn, ¬ (st.clients.get? c = some m.RoomId ∧ writeOk c = false) →
          (handleMessagesRound writeOk m st).clients.get? c = st.clients.get? c) := by
  have hcl : (handleMessagesRound writeOk m st).clients
      = st.clients.filter (fun e => decide (¬ (e.2 = m.RoomId ∧ writeOk e.1 = false))) := by
    rw [handleMessagesRound_eq writeOk m st h]
  have hwf : (handleMessagesRound writeOk m st).clients.WF := by
    rw [hcl]; exact h.filter _
  refine ⟨hcl, ?_, ?_⟩
  · intro c hc hw
    have hnone : (handleMessagesRound writeOk m st).clients.get? c = none := by
      rw [hcl, Registry.get?_filter h, hc]
      simp [Option.filter, hw]
    refine ⟨hnone, ?_⟩
    intro writeOk2 m2 hmem
    have hcount := roundWrites_fst_count writeOk2 m2 _ hwf c
    rw [hnone] at hcount
    have hpos : 0 < ((roundWrites writeOk2 m2
        (handleMessagesRound writeOk m st)).map Prod.fst).count c :=
      List.count_pos_iff.2 hmem
    simp at hcount
    omega
  · intro c hc
    rw [hcl, Registry.get?_filter h]
    cases hg : st.clients.get? c with
    | none => rfl
    | some v =>
      rw [hg] at hc
      have : ¬ (v = m.RoomId ∧ writeOk c = false) := by
        intro hv
        exact hc ⟨by rw [hv.1], hv.2⟩
      simp [Option.filter, this]

/-- The scenario of C3: the write to 1 fails, so 1 leaves the registry; 2 and 3 stay. -/
theorem handleMessages_round_registry_witness :
    lobbyState.clients.WF
      ∧ (handleMessagesRound (fun c => decide (c ≠ 1)) ⟨"hi", "lobby"⟩ lobbyState).clients
          = [(2, "lobby"), (3, "other")] :=
  ⟨by decide,
    (handleMessages_round_registry (fun c => decide (c ≠ 1)) ⟨"hi", "lobby"⟩ lobbyState
      (by decide)).1.trans (by decide)⟩

/-! ## The connection handler -/

theorem roomOfPath_ws (rest : String) : roomOfPath ("/ws/" ++ rest) = rest := by
  have hlen : "/ws/".length = 4 := by decide
  have hdata : ("/ws/" ++ rest).data = '/' :: 'w' :: 's' :: '/' :: rest.data := by
    rw [String.data_append]; rfl
  unfold roomOfPath sliceFrom
  rw [hlen, hdata]
  rfl

theorem Registry.get?_set (r : Registry) (c k : Conn) (v : String) :
    (Registry.set r c v).get? k = if k = c then some v else r.get? k := by
  induction r with
  | nil =>
    by_cases hk : k = c
    · simp [Registry.set, Registry.get?, hk]
    · have hk2 : ¬ c = k := fun h => hk h.symm
      simp [Registry.set, Registry.get?, hk, hk2]
  | cons e rest ih =>
    obtain ⟨a, x⟩ := e
    by_cases hac : a = c
    · subst hac
      by_cases hk : k = a
      · simp [Registry.set, Registry.get?, hk]
      · have hk2 : ¬ a = k := fun h => hk h.symm
        simp [Registry.set, Registry.get?, hk, hk2]
    · by_cases hk : a = k
      · subst hk
        simp [Registry.set, Registry.get?, hac]
      · simp [Registry.set, Registry.get?, hac, hk, ih]

theorem Registry.keys_set (r : Registry) (c : Conn) (v : String) :
    (Registry.set r c v).map Prod.fst
      = if c ∈ r.map Prod.fst then r.map Prod.fst else r.map Prod.fst ++ [c] := by
  induction r with
  | nil => simp [Registry.set]
  | cons e rest ih =>
    obtain ⟨a, x⟩ := e
    by_cases hac : a = c
    · subst hac
      simp [Registry.set]
    · have hca : ¬ c = a := fun h => hac h.symm
      by_cases hmem : c ∈ rest.map Prod.fst
      · rw [if_pos hmem] at ih
        have hmem2 : c ∈ ((a, x) :: rest).map Prod.fst := by
          rw [List.map_cons]; exact List.mem_cons_of_mem _ hmem
        rw [if_pos hmem2]
        simp only [Registry.set, if_neg hac, List.map_cons, ih]
      · rw [if_neg hmem] at ih
        have hmem2 : c ∉ ((a, x) :: rest).map Prod.fst := by
          rw [List.map_cons, List.mem_cons]
          exact fun h => h.elim hca hmem
        rw [if_neg hmem2]
        simp only [Registry.set, if_neg hac, List.map_cons, ih, List.cons_append]

theorem Registry.WF.set {r : Registry} (h : r.WF) (c : Conn) (v : String) :
    Registry.WF (Registry.set r c v) := by
  unfold Registry.WF at h ⊢
  rw [Registry.keys_set]
  by_cases hmem : c ∈ r.map Prod.fst
  · rw [if_pos hmem]; exact h
  · rw [if_neg hmem]
    exact List.Nodup.append h (List.nodup_singleton c) (by simpa using hmem)

theorem readLoop_decoded (ws : Conn) (path : String) (ms : List SocketMessage)
    (tail : List (Option SocketMessage)) :
    ∀ st : State, readLoop ws path (ms.map some ++ tail) st
      = readLoop ws path tail
          { st with broadcast := st.broadcast
              ++ ms.map (fun m => { m with RoomId := roomOfPath path }) } := by
  induction ms with
  | nil => intro st; simp
  | cons m rest ih =>
    intro st
    have hstep : readLoop ws path (some m :: (rest.map some ++ tail)) st
        = readLoop ws path (rest.map some ++ tail)
            { st with broadcast := st.broadcast ++ [{ m with RoomId := roomOfPath path }] } := by
      simp only [readLoop, readJSON]
    rw [List.map_cons, List.cons_append, hstep, ih]
    simp

/-- C2: on a connection accepted at the path `/ws/` followed by `rest`, which is registered
under the room `rest`, the reader loop submits for every decoded message `m` the message
with the text of `m` and the room id `rest`; the room id sent by the client has no effect,
so two client messages that differ only in the room id are forwarded as the same message. -/
theorem reader_stamps_room (ws : Conn) (rest : String) (m : SocketMessage) (st : State) :
    (register ws ("/ws/" ++ rest) st).clients.get? ws = some rest
      ∧ readJSON ws ("/ws/" ++ rest) (some m) st
          = ({ st with broadcast := st.broadcast ++ [{ Message := m.Message, RoomId := rest }] },
              false)
      ∧ (∀ room2 : String,
          readJSON ws ("/ws/" ++ rest) (some { m with RoomId := room2 }) st
            = readJSON ws ("/ws/" ++ rest) (some m) st)
      ∧ (∀ ms : List SocketMessage,
          SocketHandle (some ws) ("/ws/" ++ rest) (ms.map some) st
            = .reading
                { clients := st.clients.set ws rest
                  broadcast := st.broadcast
                    ++ ms.map (fun m => { Message := m.Message, RoomId := rest })
                  writes := st.writes
                  writeErrors := st.writeErrors
                  closed := st.closed }) := by
  refine ⟨?_, ?_, ?_, ?_⟩
  · simp [register, roomOfPath_ws, Registry.get?_set]
  · simp [readJSON, roomOfPath_ws]
  · intro room2
    simp [readJSON]
  · intro ms
    have h := readLoop_decoded ws ("/ws/" ++ rest) ms [] (register ws ("/ws/" ++ rest) st)
    rw [List.append_nil] at h
    simp only [SocketHandle]
    rw [h]
    simp [readLoop, register, roomOfPath_ws]

/-- C4: a failed read on `ws` ends the reader loop, submits nothing to the broadcast
channel, and removes `ws` from the registry while every other entry stays as it was, so that
no later round of the broadcaster writes to `ws`; the handler returns at the first failed
read, also when it is the very first read, whatever reads would follow. -/
theorem reader_failure_unregisters (ws : Conn) (path : String) (st : State)
    (h : st.clients.WF) :
    readJSON ws path none st = ({ st with clients := st.clients.delete ws }, true)
      ∧ (readJSON ws path none st).1.broadcast = st.broadcast
      ∧ (∀ c : Conn, (readJSON ws path none st).1.clients.get? c
          = if c = ws then none else st.clients.get? c)
      ∧ (∀ (writeOk : Conn → Bool) (m : SocketMessage),
          ws ∉ (roundWrites writeOk m (readJSON ws path none st).1).map Prod.fst)
      ∧ (∀ (ms : List SocketMessage) (tail : List (Option SocketMessage)),
          SocketHandle (some ws) path (ms.map some ++ none :: tail) st
            = .returned
                { clients := (st.clients.set ws (roomOfPath path)).delete ws
                  broadcast := st.broadcast
                    ++ ms.map (fun m => { m with RoomId := roomOfPath path })
                  writes := st.writes
                  writeErrors := st.writeErrors
                  closed := st.closed ++ [ws] }) := by
  refine ⟨rfl, rfl, ?_, ?_, ?_⟩
  · intro c
    simp [readJSON, Registry.get?_delete]
  · intro writeOk m hmem
    have hwf : (readJSON ws path none st).1.clients.WF := by
      simpa [readJSON, Registry.delete] using h.filter (fun e => decide (e.1 ≠ ws))
    have hcount := roundWrites_fst_count writeOk m _ hwf ws
    have hnone : (readJSON ws path none st).1.clients.get? ws = none := by
      simp [readJSON, Registry.get?_delete]
    rw [hnone] at hcount
    have hpos := List.count_pos_iff.2 hmem
    simp at hcount
    omega
  · intro ms tail
    have hl := readLoop_decoded ws path ms (none :: tail) (register ws path st)
    simp only [SocketHandle]
    rw [hl]
    simp [readLoop, readJSON, register, deferredClose]

/-- The scenario of C4: connection 1, in room `lobby`, fails its first read. -/
theorem reader_failure_unregisters_witness :
    lobbyState.clients.WF
      ∧ readJSON 1 "/ws/lobby" none lobbyState
          = ({ lobbyState with clients := [(2, "lobby"), (3, "other")] }, true) :=
  ⟨by decide, (reader_failure_unregisters 1 "/ws/lobby" lobbyState (by decide)).1⟩

/-- C5: for every path `/ws/` followed by any string `rest`, a successful upgrade leaves the
handler in its reader loop (no error) with a registry that maps the new connection to
`rest` and every other connection to what it was mapped to before; the entry of the new
connection is overwritten when there was one and added otherwise. -/
theorem SocketHandle_registers (ws : Conn) (rest : String) (st : State) :
    SocketHandle (some ws) ("/ws/" ++ rest) [] st
        = .reading { st with clients := st.clients.set ws rest }
      ∧ (∀ c : Conn, (st.clients.set ws rest).get? c
          = if c = ws then some rest else st.clients.get? c)
      ∧ (st.clients.set ws rest).map Prod.fst
          = if ws ∈ st.clients.map Prod.fst then st.clients.map Prod.fst
            else st.clients.map Prod.fst ++ [ws] := by
  refine ⟨?_, ?_, Registry.keys_set _ _ _⟩
  · simp [SocketHandle, readLoop, register, roomOfPath_ws]
  · intro c
    exact Registry.get?_set _ _ _ _

/-- C6, as stated, fails: when the upgrade fails the handler does not return with the
process still running. -/
theorem SocketHandle_upgrade_failure_not_local :
    ¬ ∃ st1 : State, SocketHandle none "/ws/lobby" [] lobbyState = .returned st1
        ∧ st1.clients = lobbyState.clients
        ∧ (SocketHandle none "/ws/lobby" [] lobbyState).processAlive = true := by
  rintro ⟨st1, h, _⟩
  simp [SocketHandle] at h

/-- C6, amended: when the upgrade fails, `SocketHandle` ends in `log.Fatal`, which exits the
whole process; up to then the handler has changed nothing: the registry, the channel and the
connections are as they were. -/
theorem SocketHandle_upgrade_failure_exits (path : String)
    (reads : List (Option SocketMessage)) (st : State) :
    SocketHandle none path reads st = .processExit st
      ∧ (SocketHandle none path reads st).processAlive = false
      ∧ (SocketHandle none path reads st).state.clients = st.clients := by
  simp [SocketHandle, Outcome.processAlive, Outcome.state]

/-! ## The signaling endpoint -/

theorem lastIndexFrom_slash_absent (cs : List Char) (h : '/' ∉ cs) :
    ∀ i : Nat, lastIndexFrom ['/'] cs i = -1 := by
  induction cs with
  | nil => intro i; simp [lastIndexFrom]
  | cons c rest ih =>
    intro i
    have hc : c ≠ '/' := fun hc => h (by simp [hc])
    have hrest : '/' ∉ rest := fun hr => h (List.mem_cons_of_mem _ hr)
    have hc2 : ¬ '/' = c := fun hc2 => hc hc2.symm
    simp [lastIndexFrom, ih hrest, List.isPrefixOf, hc2]

theorem apiModeHash_time (v : String) (hslash : '/' ∉ v.data) :
    apiModeHash ("/r/time/" ++ v) = ("time", v) := by
  have hdata : ("/r/time/" ++ v).data
      = '/' :: 'r' :: '/' :: 't' :: 'i' :: 'm' :: 'e' :: '/' :: v.data := by
    rw [String.data_append]; rfl
  have hlen : ("/r/time/" ++ v).length > "/r/".length := by
    have h3 : "/r/".length = 3 := by decide
    rw [h3]
    show ("/r/time/" ++ v).data.length > 3
    rw [hdata]
    simp
  have hmode : sliceFrom ("/r/time/" ++ v) "/r/".length
      = ⟨'t' :: 'i' :: 'm' :: 'e' :: '/' :: v.data⟩ := by
    have h3 : "/r/".length = 3 := by decide
    unfold sliceFrom
    rw [h3, hdata]
    rfl
  have hslashdata : "/".data = ['/'] := rfl
  have hidx : stringsIndex ⟨'t' :: 'i' :: 'm' :: 'e' :: '/' :: v.data⟩ "/" = 4 := by
    simp [stringsIndex, hslashdata, indexFrom, List.isPrefixOf]
  have hlast : stringsLastIndex ⟨'t' :: 'i' :: 'm' :: 'e' :: '/' :: v.data⟩ "/" = 4 := by
    simp [stringsLastIndex, hslashdata, lastIndexFrom, List.isPrefixOf,
      lastIndexFrom_slash_absent v.data hslash]
  unfold apiModeHash
  rw [if_pos hlen]
  simp only [hmode, hidx, hlast]
  simp [sliceTo, sliceFrom]

theorem ApiHandle_time_eq (v : String) (hv : v ≠ "") (hslash : '/' ∉ v.data)
    (formIp : String) (writeOk : Conn → Bool) (st : State) (w : ResponseWriter)
    (h : st.clients.WF) :
    ApiHandle "GET" ("/r/time/" ++ v) formIp writeOk st w
      = ({ clients := st.clients.filter
              (fun e => decide (¬ (e.2 = "ws" ∧ writeOk e.1 = false)))
           broadcast := st.broadcast
           writes := st.writes ++ (st.clients.filter (fun e => decide (e.2 = "ws"))).map
              (fun e => (e.1, { Message := v, RoomId := "" }))
           writeErrors := st.writeErrors ++ (st.clients.filter
              (fun e => decide (e.2 = "ws" ∧ writeOk e.1 = false))).map Prod.fst
           closed := st.closed ++ (st.clients.filter
              (fun e => decide (e.2 = "ws" ∧ writeOk e.1 = false))).map Prod.fst },
         ApiResponse
           { w with header := w.header ++ [("Content-Type", "application/json; charset=utf-8")] }
           200 "ok") := by
  unfold ApiHandle
  simp only [apiModeHash_time v hslash]
  rw [if_pos trivial, if_pos ⟨trivial, hv⟩,
    rangeClients_clients (fun id => id = "ws") writeOk { Message := v, RoomId := "" } st h]

/-- C8: for a non-empty value `v` without `/`, a GET request to `/r/time/` followed by `v`
makes `ApiHandle` write the message with text `v` (and empty room id) to the connections
registered under the room `ws`, each exactly once, and to no other connection, and the
response body is the line `{"result":true,"message":"ok"}`; in general `ApiResponse` writes
an envelope whose `result` is true exactly when the status code is 200. -/
theorem ApiHandle_time_signals (v : String) (hv : v ≠ "") (hslash : '/' ∉ v.data)
    (formIp : String) (writeOk : Conn → Bool) (st : State) (w : ResponseWriter)
    (h : st.clients.WF) :
    apiWrites "GET" ("/r/time/" ++ v) formIp writeOk st w
        = (st.clients.filter (fun e => decide (e.2 = "ws"))).map
            (fun e => (e.1, { Message := v, RoomId := "" }))
      ∧ (∀ c : Conn,
          ((apiWrites "GET" ("/r/time/" ++ v) formIp writeOk st w).map Prod.fst).count c
            = if st.clients.get? c = some "ws" then 1 else 0)
      ∧ (ApiHandle "GET" ("/r/time/" ++ v) formIp writeOk st w).2.body
          = w.body ++ "\x7b\"result\":true,\"message\":\"ok\"\x7d\n"
      ∧ (∀ (code : Int) (msg : String), (apiResult code msg).Result = true ↔ code = 200)
      ∧ (∀ (w0 : ResponseWriter) (code : Int) (msg : String),
          (ApiResponse w0 code msg).body
            = w0.body ++ "\x7b\"result\":" ++ (if code = 200 then "true" else "false")
                ++ ",\"message\":" ++ jsonString msg ++ "\x7d" ++ "\n") := by
  have hw : apiWrites "GET" ("/r/time/" ++ v) formIp writeOk st w
      = (st.clients.filter (fun e => decide (e.2 = "ws"))).map
          (fun e => (e.1, { Message := v, RoomId := "" })) := by
    simp [apiWrites, ApiHandle_time_eq v hv hslash formIp writeOk st w h]
  refine ⟨hw, ?_, ?_, ?_, ?_⟩
  · intro c
    rw [hw]
    exact room_fst_count h "ws" _ c
  · rw [ApiHandle_time_eq v hv hslash formIp writeOk st w h]
    have hok : jsonMarshal (apiResult 200 "ok") = "\x7b\"result\":true,\"message\":\"ok\"\x7d" := by
      decide
    simp only [ApiResponse, hok, String.append_assoc]
    rfl
  · intro code msg
    simp [apiResult]
  · intro w0 code msg
    by_cases hc : code = 200 <;>
      simp [ApiResponse, jsonMarshal, apiResult, hc, String.append_assoc]

/-- The witness of C8: the value `12` is signalled to the monitoring connections 1 and 3. -/
theorem ApiHandle_time_signals_witness :
    ("12" ≠ "" ∧ '/' ∉ "12".data ∧ monitorState.clients.WF)
      ∧ apiWrites "GET" ("/r/time/" ++ "12") "" (fun _ => true) monitorState
            ResponseWriter.fresh
          = [(1, ⟨"12", ""⟩), (3, ⟨"12", ""⟩)] :=
  ⟨by decide,
    (ApiHandle_time_signals "12" (by decide) (by decide) "" (fun _ => true) monitorState
      ResponseWriter.fresh (by decide)).1.trans (by decide)⟩

theorem ApiResponse_body_ne_empty (w : ResponseWriter) (code : Int) (msg : String) :
    (ApiResponse w code msg).body ≠ "" := by
  intro h
  have hd := congrArg String.data h
  simp [ApiResponse, String.data_append] at hd

/-- C9, as stated, fails: for the unrecognized mode `bogus` the response body is not an
envelope of `ApiResponse`, with any status code. -/
theorem ApiHandle_malformed_no_envelope :
    ¬ ∃ (code : Int) (msg : String), code ≠ 200
        ∧ (ApiHandle "GET" "/r/bogus" "" (fun _ => true) lobbyState ResponseWriter.fresh).2.body
            = (ApiResponse ResponseWriter.fresh code msg).body := by
  rintro ⟨code, msg, _, h⟩
  have hb : (ApiHandle "GET" "/r/bogus" "" (fun _ => true) lobbyState
      ResponseWriter.fresh).2.body = "" := by decide
  rw [hb] at h
  exact ApiResponse_body_ne_empty _ _ _ h.symm

/-- C9, amended: when the mode computed from the path is not `ip` and is not `time` with a
non-empty value, `ApiHandle` only sets the content type: it writes nothing to the body (no
envelope), leaves the status code at its default, and leaves the registry and the rest of
the state unchanged, for every request method. -/
theorem ApiHandle_malformed_silent (method path formIp : String) (writeOk : Conn → Bool)
    (st : State) (w : ResponseWriter)
    (hip : (apiModeHash path).1 ≠ "ip")
    (htime : (apiModeHash path).1 ≠ "time" ∨ (apiModeHash path).2 = "") :
    ApiHandle method path formIp writeOk st w
      = (st, { w with
                header := w.header ++ [("Content-Type", "application/json; charset=utf-8")] })
      ∧ (ApiHandle method path formIp writeOk st w).2.body = w.body
      ∧ (ApiHandle method path formIp writeOk st w).2.status = w.status
      ∧ (ApiHandle method path formIp writeOk st w).1.clients = st.clients := by
  have hno : ¬ ((apiModeHash path).1 = "time" ∧ (apiModeHash path).2 ≠ "") := by
    rintro ⟨h1, h2⟩
    exact htime.elim (fun h => h h1) (fun h => h2 h)
  have heq : ApiHandle method path formIp writeOk st w
      = (st, { w with
                header := w.header ++ [("Content-Type", "application/json; charset=utf-8")] }) := by
    unfold ApiHandle
    by_cases hm : method = "GET"
    · simp only [if_pos hm, if_neg hno, if_neg hip]
    · simp only [if_neg hm]
  refine ⟨heq, ?_, ?_, ?_⟩ <;> rw [heq]

/-- The witness of C9: an unrecognized mode, and the mode `time` with an empty value. -/
theorem ApiHandle_malformed_silent_witness :
    ((apiModeHash "/r/bogus").1 ≠ "ip" ∧ (apiModeHash "/r/time/").1 ≠ "ip"
        ∧ (apiModeHash "/r/time/").2 = "")
      ∧ (ApiHandle "GET" "/r/bogus" "" (fun _ => false) monitorState ResponseWriter.fresh).2.body
          = ""
      ∧ (ApiHandle "GET" "/r/time/" "" (fun _ => false) monitorState ResponseWriter.fresh).1
          = monitorState :=
  ⟨by decide,
    (ApiHandle_malformed_silent "GET" "/r/bogus" "" (fun _ => false) monitorState
      ResponseWriter.fresh (by decide) (Or.inl (by decide))).2.1,
    by decide⟩

/-! ## Close calls along the runs of the server -/

theorem Registry.mem_keys_delete (r : Registry) (ws c : Conn) :
    c ∈ (Registry.delete r ws).map Prod.fst ↔ c ≠ ws ∧ c ∈ r.map Prod.fst := by
  simp only [Registry.delete, List.mem_map, List.mem_filter]
  constructor
  · rintro ⟨e, ⟨he, hne⟩, hc⟩
    subst hc
    exact ⟨by simpa using hne, e, he, rfl⟩
  · rintro ⟨hne, e, he, hc⟩
    subst hc
    exact ⟨e, ⟨he, by simpa using hne⟩, rfl⟩

theorem Registry.hasKey_iff (r : Registry) (c : Conn) :
    r.hasKey c = true ↔ c ∈ r.map Prod.fst := by
  constructor
  · intro h
    cases hg : r.get? c with
    | none => simp [Registry.hasKey, hg] at h
    | some v => exact List.mem_map.2 ⟨(c, v), Registry.mem_of_get?_eq_some hg, rfl⟩
  · intro h
    obtain ⟨e, he, hc⟩ := List.mem_map.1 h
    subst hc
    exact Registry.hasKey_of_mem he

theorem countP_set_of_get? {α : Type} (q : α → Bool) :
    ∀ (l : List α) (i : Nat) (a b : α), l.get? i = some b →
      (l.set i a).countP q + (if q b = true then 1 else 0)
        = l.countP q + (if q a = true then 1 else 0) := by
  intro l
  induction l with
  | nil => intro i a b h; simp at h
  | cons x rest ih =>
    intro i a b h
    cases i with
    | zero =>
      simp only [List.get?_cons_zero, Option.some.injEq] at h
      subst h
      simp only [List.set_cons_zero, List.countP_cons]
      omega
    | succ j =>
      simp only [List.get?_cons_succ] at h
      have := ih j a b h
      simp only [List.set_cons_succ, List.countP_cons]
      omega

theorem countP_eraseIdx_of_get? {α : Type} (q : α → Bool) :
    ∀ (l : List α) (i : Nat) (b : α), l.get? i = some b →
      (l.eraseIdx i).countP q + (if q b = true then 1 else 0) = l.countP q := by
  intro l
  induction l with
  | nil => intro i b h; simp at h
  | cons x rest ih =>
    intro i b h
    cases i with
    | zero =>
      simp only [List.get?_cons_zero, Option.some.injEq] at h
      subst h
      simp only [List.eraseIdx_cons_zero, List.countP_cons]
    | succ j =>
      simp only [List.get?_cons_succ] at h
      have := ih j b h
      simp only [List.eraseIdx_cons_succ, List.countP_cons]
      omega

/-- What one statement of a loop does to the `Close` calls made and about to be made on a
connection, and to the write errors on it. -/
theorem Loop.step_counts (ok : Bool) (l : Loop) (st : State) (c : Conn) :
    (l.step ok st).2.closed.count c
        + (if decide ((l.step ok st).1.point = .atClose c) = true then 1 else 0)
        + st.writeErrors.count c
      = st.closed.count c + (if decide (l.point = .atClose c) = true then 1 else 0)
        + (l.step ok st).2.writeErrors.count c
    ∧ st.closed.count c ≤ (l.step ok st).2.closed.count c := by
  obtain ⟨room, msg, pending, point, b⟩ := l
  cases point with
  | atRange =>
    cases pending with
    | nil => simp [Loop.step]
    | cons e rest =>
      obtain ⟨client, id⟩ := e
      by_cases hk : st.clients.hasKey client = true <;> simp [Loop.step, hk]
  | atBody client id =>
    by_cases hid : id = room
    · cases ok with
      | true => simp [Loop.step, hid]
      | false =>
        by_cases hc : client = c
        · subst hc
          simp [Loop.step, hid, List.count_append]
          omega
        · have h0 : [client].count c = 0 :=
            List.count_eq_zero_of_not_mem (by simp; exact fun h => hc h.symm)
          simp [Loop.step, hid, List.count_append, h0, hc]
    · simp [Loop.step, hid]
  | atClose client =>
    by_cases hc : client = c
    · subst hc
      simp [Loop.step, List.count_append]
    · have h0 : [client].count c = 0 :=
        List.count_eq_zero_of_not_mem (by simp; exact fun h => hc h.symm)
      simp [Loop.step, List.count_append, h0, hc]
  | atDelete client => simp [Loop.step]

theorem Loop.point_of_done (l : Loop) (h : l.done = true) : l.point = .atRange := by
  obtain ⟨room, msg, pending, point, b⟩ := l
  cases point <;> cases pending <;> simp [Loop.done] at h ⊢

theorem pendingCloses_append_atRange (loops : List Loop) (l : Loop) (c : Conn)
    (h : l.point = .atRange) : pendingCloses (loops ++ [l]) c = pendingCloses loops c := by
  simp [pendingCloses, List.countP_append, List.countP_cons, h]

theorem Sys.Inv_step (s s1 : Sys) (e : Event) (h : s.Inv) (hs : step s e = some s1) :
    s1.Inv := by
  obtain ⟨hdis, hrun, hge, hcl⟩ := h
  cases e with
  | accept ws path =>
    simp only [step] at hs
    by_cases hg : Registry.hasKey s.handlers ws = true ∨ ws ∈ s.leaving ∨ ws ∈ s.exited
    · rw [if_pos hg] at hs; cases hs
    · rw [if_neg hg] at hs
      cases hs
      refine ⟨?_, ?_, hge, hcl⟩
      · intro c hc
        rw [List.map_cons] at hc
        rcases List.mem_cons.1 hc with h1 | h1
        · subst h1
          exact fun hlv => hg (Or.inr (Or.inl hlv))
        · exact hdis c h1
      · intro c hc
        rcases hc with hc | hc
        · rw [List.map_cons] at hc
          rcases List.mem_cons.1 hc with h1 | h1
          · subst h1
            exact fun hex => hg (Or.inr (Or.inr hex))
          · exact hrun c (Or.inl h1)
        · exact hrun c (Or.inr hc)
  | read ws r =>
    simp only [step] at hs
    cases hp : Registry.get? s.handlers ws with
    | none => rw [hp] at hs; cases hs
    | some path =>
      rw [hp] at hs
      have hws : ws ∈ s.handlers.map Prod.fst :=
        List.mem_map.2 ⟨(ws, path), Registry.mem_of_get?_eq_some hp, rfl⟩
      cases r with
      | none =>
        simp only [readJSON] at hs
        cases hs
        refine ⟨?_, ?_, hge, hcl⟩
        · intro c hc hlv
          have hc2 := (Registry.mem_keys_delete s.handlers ws c).1 hc
          rcases List.mem_cons.1 hlv with h1 | h1
          · exact hc2.1 h1
          · exact hdis c hc2.2 h1
        · intro c hc
          rcases hc with hc | hc
          · exact hrun c (Or.inl ((Registry.mem_keys_delete s.handlers ws c).1 hc).2)
          · rcases List.mem_cons.1 hc with h1 | h1
            · subst h1; exact hrun c (Or.inl hws)
            · exact hrun c (Or.inr h1)
      | some m =>
        simp only [readJSON] at hs
        cases hs
        exact ⟨hdis, hrun, hge, hcl⟩
  | exit ws =>
    simp only [step] at hs
    by_cases hl : ws ∈ s.leaving
    · rw [if_pos hl] at hs
      cases hs
      have hnex : ws ∉ s.exited := hrun ws (Or.inr hl)
      refine ⟨?_, ?_, ?_, ?_⟩
      · intro c hc hlv
        exact hdis c hc (List.mem_filter.1 hlv).1
      · intro c hc hex
        have hne : c ≠ ws := by
          rcases hc with hc | hc
          · intro hcw
            subst hcw
            exact hdis c hc hl
          · simpa using (List.mem_filter.1 hc).2
        rcases List.mem_cons.1 hex with h1 | h1
        · exact hne h1
        · rcases hc with hc | hc
          · exact hrun c (Or.inl hc) h1
          · exact hrun c (Or.inr (List.mem_filter.1 hc).1) h1
      · intro c
        by_cases hcw : c = ws
        · subst hcw
          simp [deferredClose, List.count_append]
        · have h1 : (c ∈ ws :: s.exited) ↔ c ∈ s.exited := by simp [hcw]
          have := hge c
          simp only [h1, deferredClose, List.count_append]
          omega
      · intro c
        have := hcl c
        by_cases hcw : c = ws
        · subst hcw
          have h0 : [c].count c = 1 := by simp
          rw [if_neg hnex] at this
          simp only [deferredClose, List.count_append, List.mem_cons, true_or, if_true, h0]
          omega
        · have h1 : (c ∈ ws :: s.exited) ↔ c ∈ s.exited := by simp [hcw]
          have h0 : [ws].count c = 0 :=
            List.count_eq_zero_of_not_mem (by simp; exact hcw)
          simp only [h1, deferredClose, List.count_append, h0]
          omega
    · rw [if_neg hl] at hs; cases hs
  | receive =>
    simp only [step] at hs
    by_cases hb : (s.loops.any fun l => l.broadcaster) = true
    · rw [if_pos hb] at hs; cases hs
    · rw [if_neg hb] at hs
      cases hq : s.st.broadcast with
      | nil => rw [hq] at hs; cases hs
      | cons msg queue =>
        rw [hq] at hs
        cases hs
        refine ⟨hdis, hrun, hge, ?_⟩
        intro c
        show _ + pendingCloses (s.loops ++ [_]) c = _
        rw [pendingCloses_append_atRange _ _ _ rfl]
        exact hcl c
  | api method path =>
    simp only [step] at hs
    by_cases hm : method = "GET" ∧ (apiModeHash path).1 = "time" ∧ (apiModeHash path).2 ≠ ""
    · rw [if_pos hm] at hs
      cases hs
      refine ⟨hdis, hrun, hge, ?_⟩
      intro c
      show _ + pendingCloses (s.loops ++ [_]) c = _
      rw [pendingCloses_append_atRange _ _ _ rfl]
      exact hcl c
    · rw [if_neg hm] at hs
      cases hs
      exact ⟨hdis, hrun, hge, hcl⟩
  | loop i ok =>
    simp only [step] at hs
    cases hl : s.loops.get? i with
    | none => rw [hl] at hs; cases hs
    | some l =>
      rw [hl] at hs
      simp only [] at hs
      by_cases hd : l.done = true
      · rw [if_pos hd] at hs
        cases hs
        refine ⟨hdis, hrun, hge, ?_⟩
        intro c
        have h1 := countP_eraseIdx_of_get? (fun l => decide (l.point = .atClose c))
          s.loops i l hl
        have h2 : ¬ (l.point = .atClose c) := by
          rw [Loop.point_of_done l hd]; simp
        simp only [decide_eq_true_eq, if_neg h2, Nat.add_zero] at h1
        show _ + pendingCloses (s.loops.eraseIdx i) c = _
        unfold pendingCloses
        rw [h1]
        exact hcl c
      · rw [if_neg hd] at hs
        cases hs
        have hst := fun c => Loop.step_counts ok l s.st c
        refine ⟨hdis, hrun, ?_, ?_⟩
        · intro c
          exact Nat.le_trans (hge c) (hst c).2
        · intro c
          have h1 := countP_set_of_get? (fun l => decide (l.point = .atClose c))
            s.loops i (l.step ok s.st).1 l hl
          have h2 := (hst c).1
          have h3 := hcl c
          show (l.step ok s.st).2.closed.count c
              + pendingCloses (s.loops.set i (l.step ok s.st).1) c
            = (if c ∈ s.exited then 1 else 0) + (l.step ok s.st).2.writeErrors.count c
          unfold pendingCloses at h3 ⊢
          simp only [] at h1
          omega

theorem Sys.Inv_init : Sys.init.Inv := by
  unfold Sys.Inv
  simp [Sys.init, State.init, pendingCloses]

theorem Sys.Inv_run (evs : List Event) :
    ∀ (s s1 : Sys), s.Inv → run s evs = some s1 → s1.Inv := by
  induction evs with
  | nil =>
    intro s s1 h hr
    simp only [run] at hr
    cases hr
    exact h
  | cons e rest ih =>
    intro s s1 h hr
    simp only [run] at hr
    cases hstep : step s e with
    | none => rw [hstep] at hr; cases hr
    | some s2 =>
      rw [hstep] at hr
      exact ih s2 s1 (Sys.Inv_step s s2 e h hstep) hr

/-- A fan-out loop that runs on its own, statement by statement, ends within four statements
per entry and leaves the state that `rangeClients` computes: the statements of
`Loop.step` are those of the loop of `handleMessages` and of `ApiHandle`. -/
theorem Loop.runAlone_eq (writeOk : Conn → Bool) (room : String) (msg : SocketMessage)
    (b : Bool) :
    ∀ (entries : List (Conn × String)) (n : Nat) (st : State), 4 * entries.length ≤ n →
      Loop.runAlone writeOk n ⟨room, msg, entries, .atRange, b⟩ st
        = (⟨room, msg, [], .atRange, b⟩,
            rangeClients
              (fun client id s => if id = room then writeJSON writeOk msg client s else s)
              entries st) := by
  intro entries
  induction entries with
  | nil =>
    intro n st _
    cases n with
    | zero => simp [Loop.runAlone, rangeClients]
    | succ m => simp [Loop.runAlone, Loop.done, rangeClients]
  | cons e rest ih =>
    intro n st hn
    obtain ⟨c, id⟩ := e
    have hlen : 4 * rest.length + 4 ≤ n := by
      simpa [List.length_cons, Nat.mul_add] using hn
    obtain ⟨m, rfl⟩ : ∃ m, n = m + 4 := ⟨n - 4, by omega⟩
    have hm : 4 * rest.length ≤ m := by omega
    by_cases hk : st.clients.hasKey c = true
    · by_cases hid : id = room
      · by_cases hw : writeOk c = true
        · have h1 : Loop.runAlone writeOk (m + 4) ⟨room, msg, (c, id) :: rest, .atRange, b⟩ st
              = Loop.runAlone writeOk (m + 2) ⟨room, msg, rest, .atRange, b⟩
                  { st with writes := st.writes ++ [(c, msg)] } := by
            simp [Loop.runAlone, Loop.done, Loop.step, Loop.okFor, hk, hid, hw]
          rw [h1, ih (m + 2) _ (by omega)]
          simp [rangeClients, hk, hid, writeJSON, hw]
        · have hw2 : writeOk c = false := by simpa using hw
          have h1 : Loop.runAlone writeOk (m + 4) ⟨room, msg, (c, id) :: rest, .atRange, b⟩ st
              = Loop.runAlone writeOk m ⟨room, msg, rest, .atRange, b⟩
                  { st with
                      writes := st.writes ++ [(c, msg)]
                      writeErrors := st.writeErrors ++ [c]
                      closed := st.closed ++ [c]
                      clients := st.clients.delete c } := by
            simp [Loop.runAlone, Loop.done, Loop.step, Loop.okFor, hk, hid, hw2]
          rw [h1, ih m _ hm]
          simp [rangeClients, hk, hid, writeJSON, hw2]
      · have h1 : Loop.runAlone writeOk (m + 4) ⟨room, msg, (c, id) :: rest, .atRange, b⟩ st
            = Loop.runAlone writeOk (m + 2) ⟨room, msg, rest, .atRange, b⟩ st := by
          simp [Loop.runAlone, Loop.done, Loop.step, Loop.okFor, hk, hid]
        rw [h1, ih (m + 2) _ (by omega)]
        simp [rangeClients, hk, hid]
    · have h1 : Loop.runAlone writeOk (m + 4) ⟨room, msg, (c, id) :: rest, .atRange, b⟩ st
          = Loop.runAlone writeOk (m + 3) ⟨room, msg, rest, .atRange, b⟩ st := by
        simp [Loop.runAlone, Loop.done, Loop.step, Loop.okFor, hk]
      rw [h1, ih (m + 3) _ (by omega)]
      simp [rangeClients, hk]

/-- The loop of the broadcaster, run on its own, is the round `handleMessagesRound`. -/
theorem handleMessagesRound_eq_runAlone (writeOk : Conn → Bool) (msg : SocketMessage)
    (st : State) :
    (Loop.runAlone writeOk (4 * st.clients.length)
        ⟨msg.RoomId, msg, st.clients, .atRange, true⟩ st).2
      = handleMessagesRound writeOk msg st := by
  rw [Loop.runAlone_eq writeOk msg.RoomId msg true st.clients _ st (Nat.le_refl _)]
  rfl

/-- The loop of `ApiHandle`, run on its own, leaves the state that `ApiHandle` computes. -/
theorem ApiHandle_eq_runAlone (path formIp : String) (writeOk : Conn → Bool) (st : State)
    (w : ResponseWriter)
    (h : (apiModeHash path).1 = "time" ∧ (apiModeHash path).2 ≠ "") :
    (ApiHandle "GET" path formIp writeOk st w).1
      = (Loop.runAlone writeOk (4 * st.clients.length)
          ⟨"ws", { Message := (apiModeHash path).2, RoomId := "" }, st.clients, .atRange,
            false⟩ st).2 := by
  rw [Loop.runAlone_eq writeOk "ws" _ false st.clients _ st (Nat.le_refl _)]
  unfold ApiHandle
  simp only [if_pos h, if_true]

/-- C7, as stated, fails: in the run where a write of the broadcaster to connection 1 fails
before its reader ends, the handler of 1 has returned and `Close` was called on 1 twice,
once after the failed write and once by the deferred close. -/
theorem close_exactly_once_fails :
    ¬ ∀ (evs : List Event) (s : Sys) (c : Conn),
        run Sys.init evs = some s → c ∈ s.exited → s.st.closed.count c = 1 := by
  intro h
  have hr : run Sys.init failedWriteRun = some failedWriteEnd := by decide
  have := h failedWriteRun failedWriteEnd 1 hr (by decide)
  revert this
  decide

/-- C7, amended: along every interleaving of the statements of the readers, the broadcaster
and the signaling endpoint, once the handler of a connection has returned, the `Close`
calls on that connection are one for the deferred close of `SocketHandle` and one for each
failed write to it in `handleMessages` or `ApiHandle`, a failed write whose `Close` is the
next statement of its loop counting as about to be made.  So `Close` has been called at
least once, at most once more than writes to the connection have failed, and exactly once
when no write to it failed. -/
theorem close_count_after_exit (evs : List Event) (s : Sys) (c : Conn)
    (hrun : run Sys.init evs = some s) (hc : c ∈ s.exited) :
    s.st.closed.count c + pendingCloses s.loops c = 1 + s.st.writeErrors.count c
      ∧ 1 ≤ s.st.closed.count c
      ∧ s.st.closed.count c ≤ 1 + s.st.writeErrors.count c
      ∧ (s.st.writeErrors.count c = 0 → s.st.closed.count c = 1) := by
  have hinv : s.Inv := Sys.Inv_run evs Sys.init s Sys.Inv_init hrun
  obtain ⟨_, _, hge, hcl⟩ := hinv
  have h1 := hcl c
  have h2 := hge c
  rw [if_pos hc] at h1 h2
  refine ⟨h1, h2, by omega, ?_⟩
  intro h0
  omega

/-- The witness of C7: in `failedWriteRun` the write to connection 1 fails, then its reader
ends and its handler returns; `Close` has been called on 1 twice. -/
theorem close_count_after_exit_witness :
    (run Sys.init failedWriteRun = some failedWriteEnd ∧ 1 ∈ failedWriteEnd.exited)
      ∧ failedWriteEnd.st.closed.count 1 + pendingCloses failedWriteEnd.loops 1
          = 1 + failedWriteEnd.st.writeErrors.count 1 :=
  ⟨⟨by decide, by decide⟩,
    (close_count_after_exit failedWriteRun failedWriteEnd 1 (by decide) (by decide)).1⟩

/-- The number of `Close` calls on one connection is not bounded by two: when the loop of
the broadcaster and a loop of `ApiHandle` both hold connection 1 before either deletes it
and both writes fail, `Close` is called on 1 three times. -/
theorem overlappingRun_closes :
    (run Sys.init overlappingRun).map (fun s => (s.st.closed, s.st.writeErrors, s.exited))
      = some ([1, 1, 1], [1, 1], [1]) := by
  decide

/-! ## Evaluations on concrete inputs -/

theorem roomOfPath_examples :
    roomOfPath "/ws/lobby" = "lobby" ∧ roomOfPath "/ws/" = "" ∧ roomOfPath "/ws/a/b" = "a/b" := by
  decide

theorem apiModeHash_examples :
    apiModeHash "/r/time/12" = ("time", "12") ∧ apiModeHash "/r/time/" = ("time", "")
      ∧ apiModeHash "/r/time" = ("time", "") ∧ apiModeHash "/r//x" = ("/x", "")
      ∧ apiModeHash "/r/a/b/c" = ("a/b", "c") ∧ apiModeHash "/r/" = ("", "") := by
  decide

theorem ApiResponse_examples :
    (ApiResponse ResponseWriter.fresh 200 "ok").body
        = "\x7b\"result\":true,\"message\":\"ok\"\x7d\n"
      ∧ (ApiResponse ResponseWriter.fresh 404 "a<b\"").body
        = "\x7b\"result\":false,\"message\":\"a\\u003cb\\\"\"\x7d\n" := by
  decide

theorem SocketHandle_example :
    SocketHandle (some 1) "/ws/lobby" [some ⟨"hi", "x"⟩, none] State.init
      = .returned ⟨[], [⟨"hi", "lobby"⟩], [], [], [1]⟩ := by
  decide

end SocketGame
